import Mathlib

/-!
# AutoDNS — verification of the service-discovery resolution pipeline

Shallow embedding of the Go program `autodns` (file `main.go`, latest
revision: the one containing `discoverTraefik`).  Containers, labels and
network attachments are modelled as plain lists of string pairs; Go map
iteration over labels is modelled by list order (one admissible iteration
order).  `net.IP` is modelled by `GoIP`: either `nil` (the value Go's
`net.ParseIP` returns on a failed parse) or four bytes of an IPv4 address.
`net.ParseIP` also accepts IPv6 literals; this embedding models the IPv4
subset, which is the only form exercised by the theorems below — every
concrete input fed to the parser here is either a dotted-quad or a string
on which Go's parser fails as well.
-/

set_option autoImplicit false

namespace AutoDNS

/-! ## IPv4 addresses (`net.IP` subset) -/

/-- Go `net.IP` as used by the program: `nil` (failed parse) or 4 bytes. -/
inductive GoIP where
  | nil : GoIP
  | v4 : Fin 256 → Fin 256 → Fin 256 → Fin 256 → GoIP
  deriving DecidableEq, Repr

/-- Decimal digit character. -/
def digitChar (n : Nat) : Char := Char.ofNat (48 + n)

/-- Decimal rendering of one octet (0–255), mirroring Go's `uitoa`:
no padding, no leading zeros. -/
def octetChars (n : Nat) : List Char :=
  if n < 10 then [digitChar n]
  else if n < 100 then [digitChar (n / 10), digitChar (n % 10)]
  else [digitChar (n / 100), digitChar (n / 10 % 10), digitChar (n % 10)]

/-- Character list of the dotted-quad rendering `a.b.c.d`. -/
def ipChars (a b c d : Nat) : List Char :=
  octetChars a ++ '.' :: (octetChars b ++ '.' :: (octetChars c ++ '.' :: octetChars d))

/-- Go `net.IP.String()`: dotted-quad for a 4-byte IP, `"<nil>"` for nil. -/
def ipString : GoIP → String
  | .nil => "<nil>"
  | .v4 a b c d => ⟨ipChars a.val b.val c.val d.val⟩

/-- Numeric value of a list of decimal digit characters. -/
def digitsVal (ds : List Char) : Nat :=
  ds.foldl (fun acc c => acc * 10 + (c.toNat - 48)) 0

/-- Read one decimal octet from the front of a character list, mirroring the
field parser inside Go's `net.ParseIP` for IPv4: 1–3 digits, value ≤ 255,
leading zeros rejected (Go ≥ 1.17).  Returns the octet and the remainder. -/
def readOctet (cs : List Char) : Option (Fin 256 × List Char) :=
  let ds := cs.takeWhile Char.isDigit
  let rest := cs.dropWhile Char.isDigit
  if ds = [] then none
  else if 3 < ds.length then none
  else if ds.head? = some '0' ∧ 1 < ds.length then none
  else
    if h : digitsVal ds < 256 then some (⟨digitsVal ds, h⟩, rest) else none

/-- IPv4 parse of a whole character list: `a.b.c.d`, nothing trailing. -/
def parseIPv4Chars (cs : List Char) : Option (Fin 256 × Fin 256 × Fin 256 × Fin 256) :=
  match readOctet cs with
  | none => none
  | some (a, r1) =>
    match r1 with
    | '.' :: r1' =>
      match readOctet r1' with
      | none => none
      | some (b, r2) =>
        match r2 with
        | '.' :: r2' =>
          match readOctet r2' with
          | none => none
          | some (c, r3) =>
            match r3 with
            | '.' :: r3' =>
              match readOctet r3' with
              | none => none
              | some (d, r4) => if r4 = [] then some (a, b, c, d) else none
            | _ => none
        | _ => none
    | _ => none

/-- Go `net.ParseIP` (IPv4 subset): a dotted-quad parses to its bytes,
anything else yields the nil IP. -/
def parseIP (s : String) : GoIP :=
  match parseIPv4Chars s.data with
  | some (a, b, c, d) => .v4 a b c d
  | none => .nil

/-! ### Round-trip: rendering a `GoIP` and parsing it back is the identity -/

set_option maxRecDepth 8000

theorem octetChars_spec : ∀ n, n < 256 →
    (octetChars n).all Char.isDigit = true ∧ octetChars n ≠ [] ∧
    (octetChars n).length ≤ 3 ∧
    ¬((octetChars n).head? = some '0' ∧ 1 < (octetChars n).length) ∧
    digitsVal (octetChars n) = n := by decide

theorem takeWhile_append_of_all {p : Char → Bool} {l r : List Char}
    (h : l.all p = true) : (l ++ r).takeWhile p = l ++ r.takeWhile p := by
  induction l with
  | nil => simp
  | cons c cs ih =>
    simp only [List.all_cons, Bool.and_eq_true] at h
    simp [List.takeWhile, h.1, ih h.2]

theorem dropWhile_append_of_all {p : Char → Bool} {l r : List Char}
    (h : l.all p = true) : (l ++ r).dropWhile p = r.dropWhile p := by
  induction l with
  | nil => simp
  | cons c cs ih =>
    simp only [List.all_cons, Bool.and_eq_true] at h
    simp [List.dropWhile, h.1, ih h.2]

theorem readOctet_octetChars (n : Nat) (hn : n < 256) (rest : List Char)
    (hrest : ∀ c, rest.head? = some c → c.isDigit = false) :
    readOctet (octetChars n ++ rest) = some (⟨n, hn⟩, rest) := by
  obtain ⟨hdig, hne, hlen, hlead, hval⟩ := octetChars_spec n hn
  have htake : (octetChars n ++ rest).takeWhile Char.isDigit = octetChars n := by
    rw [takeWhile_append_of_all hdig]
    cases rest with
    | nil => simp
    | cons c cs => simp [List.takeWhile, hrest c rfl]
  have hdrop : (octetChars n ++ rest).dropWhile Char.isDigit = rest := by
    rw [dropWhile_append_of_all hdig]
    cases rest with
    | nil => simp
    | cons c cs => simp [List.dropWhile, hrest c rfl]
  have hv256 : digitsVal (octetChars n) < 256 := by rw [hval]; exact hn
  unfold readOctet
  simp only [htake, hdrop]
  rw [if_neg hne, if_neg (by omega), if_neg hlead, dif_pos hv256]
  simp [Fin.ext_iff, hval]

theorem parseIP_ipString (ip : GoIP) : parseIP (ipString ip) = ip := by
  cases ip with
  | nil => decide
  | v4 a b c d =>
    have hdot : ∀ (xs : List Char) (c : Char), ('.' :: xs).head? = some c → c.isDigit = false := by
      intro xs c hc
      simp only [List.head?_cons, Option.some.injEq] at hc
      subst hc; decide
    have ha := readOctet_octetChars a.val a.isLt
      ('.' :: (octetChars b.val ++ '.' :: (octetChars c.val ++ '.' :: octetChars d.val)))
      (hdot _)
    have hb := readOctet_octetChars b.val b.isLt
      ('.' :: (octetChars c.val ++ '.' :: octetChars d.val)) (hdot _)
    have hc := readOctet_octetChars c.val c.isLt ('.' :: octetChars d.val) (hdot _)
    have hd := readOctet_octetChars d.val d.isLt [] (by intro c hc; simp at hc)
    show parseIP ⟨ipChars a.val b.val c.val d.val⟩ = GoIP.v4 a b c d
    unfold parseIP parseIPv4Chars
    simp only [ipChars, String.data]
    simp only [List.append_nil] at hd
    simp only [ha, hb, hc, hd]
    simp

/-! ## The Traefik router-rule label matcher

The Go source matches `label + "=" + value` against the regexp

  traefik.http.routers.([\w\-\_]+).rule=Host\(`FQDN`\)

where `FQDN` is `((?:(?:[a-zA-Z]|[a-zA-Z][a-zA-Z0-9\-]*[a-zA-Z0-9])\.)*
(?:[A-Za-z]|[A-Za-z][A-Za-z0-9\-]*[A-Za-z0-9]))` and uses
`FindStringSubmatch` (leftmost, unanchored).  The dots inside
`traefik.http.routers.` and `.rule` are unescaped and match any character.
The embedding below scans start positions left to right; at a position it
matches the literal-with-wildcard prefix, then the router-name group
greedily (longest run of word characters first, backtracking to shorter
ones), then the literal `rule=Host(` with backtick, then the hostname
group.  Since the hostname grammar contains no backtick, that group must
span exactly to the next backtick, which must be followed by `)`; this is
how the backtracking engine behaves on the same pattern. -/

/-- The regexp class `[\w\-\_]` (RE2 `\w` is ASCII `[0-9A-Za-z_]`). -/
def isWordCharGo (c : Char) : Bool := c.isAlpha || c.isDigit || c = '_' || c = '-'

/-- The regexp class `[a-zA-Z0-9\-]` (interior of a DNS label). -/
def isLabelChar (c : Char) : Bool := c.isAlpha || c.isDigit || c = '-'

/-- One DNS label per the regexp alternative
`[a-zA-Z]|[a-zA-Z][a-zA-Z0-9\-]*[a-zA-Z0-9]`: a single letter, or a letter,
then interior letters/digits/dashes, ending in a letter or digit. -/
def isDnsLabel (l : List Char) : Bool :=
  match l with
  | [] => false
  | c :: cs =>
    match cs.getLast? with
    | none => c.isAlpha
    | some d => c.isAlpha && cs.all isLabelChar && d.isAlphanum

/-- Split a character list on `'.'` (parts keep no dots; empty parts kept). -/
def splitOnDot : List Char → List (List Char)
  | [] => [[]]
  | c :: cs =>
    if c = '.' then [] :: splitOnDot cs
    else
      match splitOnDot cs with
      | [] => [[c]]
      | p :: ps => (c :: p) :: ps

/-- The hostname group `(?:LABEL\.)*LABEL`: dot-separated DNS labels. -/
def isFqdn (cs : List Char) : Bool :=
  (splitOnDot cs).all isDnsLabel

/-- Match a literal character sequence at the front, returning the rest. -/
def matchLit : List Char → List Char → Option (List Char)
  | [], cs => some cs
  | _ :: _, [] => none
  | p :: ps, c :: cs => if c = p then matchLit ps cs else none

/-- Match the regexp `.` (any single character), returning the rest. -/
def matchAnyChar : List Char → Option (List Char)
  | [] => none
  | _ :: cs => some cs

/-- The hostname group followed by the closing literal backtick and `)`.
Returns the captured group.  The group must span exactly to the first
backtick (its grammar admits no backtick), match the FQDN grammar there,
and be followed by a backtick and `)`. -/
def group2Part (cs : List Char) : Option (List Char) :=
  let seg := cs.takeWhile (fun c => c ≠ '`')
  let rest := cs.dropWhile (fun c => c ≠ '`')
  if isFqdn seg then
    match rest with
    | '`' :: ')' :: _ => some seg
    | _ => none
  else none

/-- Greedy router-name group `([\w\-\_]+)`: try the longest prefix of the
word-character run first, backtracking to shorter ones; after the group,
one wildcard character (the unescaped dot before `rule`), the literal
`rule=Host(` with backtick, then the hostname group. -/
def tryRouterLen (run tail : List Char) : Nat → Option (List Char × List Char)
  | 0 => none
  | k + 1 =>
    let rem := run.drop (k + 1) ++ tail
    match matchAnyChar rem with
    | none => tryRouterLen run tail k
    | some rem1 =>
      match matchLit "rule=Host(`".data rem1 with
      | none => tryRouterLen run tail k
      | some rem2 =>
        match group2Part rem2 with
        | some seg => some (run.take (k + 1), seg)
        | none => tryRouterLen run tail k

/-- Attempt a match of the whole pattern at this start position. -/
def matchAt (cs : List Char) : Option (List Char × List Char) :=
  match matchLit "traefik".data cs with
  | none => none
  | some r1 =>
    match matchAnyChar r1 with
    | none => none
    | some r2 =>
      match matchLit "http".data r2 with
      | none => none
      | some r3 =>
        match matchAnyChar r3 with
        | none => none
        | some r4 =>
          match matchLit "routers".data r4 with
          | none => none
          | some r5 =>
            match matchAnyChar r5 with
            | none => none
            | some r6 =>
              let run := r6.takeWhile isWordCharGo
              let tail := r6.dropWhile isWordCharGo
              tryRouterLen run tail run.length

/-- Leftmost unanchored search, as `FindStringSubmatch` does. -/
def findTraefik : List Char → Option (List Char × List Char)
  | [] => none
  | c :: cs =>
    match matchAt (c :: cs) with
    | some r => some r
    | none => findTraefik cs

/-- The match the Go code performs for a label pair: submatches
`(router name, hostname)` of `label ++ "=" ++ value` or `none`. -/
def traefikMatch (s : String) : Option (String × String) :=
  (findTraefik s.data).map (fun p => (⟨p.1⟩, ⟨p.2⟩))

example : traefikMatch "traefik.http.routers.web.rule=Host(`site.io`)" =
    some ("web", "site.io") := by decide

example : traefikMatch "com.autodns.hostname=app.local" = none := by decide

example : traefikMatch "traefik.http.routers.web.rule=Host(`bad_name`)" = none := by decide

/-! ## Data model -/

/-- A container record from the inventory (`container.Summary`): the first
entry of `Names`, the `Image` reference, the `Labels` map and the
`NetworkSettings.Networks` map (network name ↦ `IPAddress`).  Go maps are
modelled as association lists with unique keys; list order stands in for
Go's map iteration order where the code ranges over a map. -/
structure Container where
  name : String
  image : String
  labels : List (String × String)
  networks : List (String × String)
  deriving DecidableEq, Repr

/-- The `Service` struct of the Go source. -/
structure Service where
  containerName : String
  hostnameLabel : String
  ipAddress : GoIP
  deriving DecidableEq, Repr

/-- Go map read `m[key]` on a label / network map: first entry with the key. -/
def lookupKey (m : List (String × String)) (key : String) : Option String :=
  (m.find? (fun kv => kv.1 == key)).map (fun kv => kv.2)

/-- Embeds `strings.Split(image, ":")[0]`: the image reference up to the first `:`. -/
def imageNameChars : List Char → List Char
  | [] => []
  | c :: cs => if c = ':' then [] else c :: imageNameChars cs

/-- Image name (the portion of the image reference before any tag). -/
def imageName (s : String) : String := ⟨imageNameChars s.data⟩

/-- Network selection: label `com.autodns.network`, defaulting to `bridge`
only when the label is absent (`ok == false`); a present-but-empty label
keeps the empty string. -/
def selectedNetwork (labels : List (String × String)) : String :=
  match lookupKey labels "com.autodns.network" with
  | some n => n
  | none => "bridge"

/-- Embeds `container.NetworkSettings.Networks[network].IPAddress` behind the
`exists` check: the address of the attachment on `net`, if attached. -/
def networkAddr (c : Container) (net : String) : Option String :=
  lookupKey c.networks net

/-! ## Proxy discovery (`discoverTraefik`) -/

/-- Network part of the `discoverTraefik` per-container body. -/
def resolveTraefikNet (c : Container) : Option Service :=
  match networkAddr c (selectedNetwork c.labels) with
  | none => none
  | some addr => if addr = "" then none else some ⟨c.name, "traefik", parseIP addr⟩

/-- Body of the `discoverTraefik` loop for one traefik-imaged container:
`com.autodns.ip` override if present and non-empty (parsed blindly),
otherwise the selected network's address, skipping (`none`) when the
network is missing or its address is empty. -/
def resolveTraefikContainer (c : Container) : Option Service :=
  match lookupKey c.labels "com.autodns.ip" with
  | some ipl =>
    if ipl = "" then resolveTraefikNet c
    else some ⟨c.name, "traefik", parseIP ipl⟩
  | none => resolveTraefikNet c

/-- The `discoverTraefik` scan over the inventory; non-traefik images are skipped,
and a traefik-imaged container that fails to resolve is skipped too
(the loop `continue`s to later containers). -/
def discoverTraefik : List Container → Option Service
  | [] => none
  | c :: rest =>
    if imageName c.image = "traefik" then
      match resolveTraefikContainer c with
      | some s => some s
      | none => discoverTraefik rest
    else discoverTraefik rest

/-! ## Service discovery (`discover`) -/

/-- State threaded through the label-scanning loop of `discover`:
the `hostname` variable, the `routed` flag, and the services appended to
`discovered` so far by this loop. -/
structure ScanState where
  hostname : String
  routed : Bool
  services : List Service
  deriving DecidableEq, Repr

/-- The `for label, value := range container.Labels` loop of `discover`:
on a regexp match the `hostname` variable is assigned the captured FQDN;
if no proxy was discovered the loop `continue`s (inner loop only — the
container is *not* skipped); otherwise a proxy-routed Service is appended
and `routed` is set. -/
def scanLabels (t : Option Service) (cname : String) :
    List (String × String) → ScanState → ScanState
  | [], st => st
  | (k, v) :: rest, st =>
    match traefikMatch (k ++ "=" ++ v) with
    | none => scanLabels t cname rest st
    | some (_, fqdn) =>
      match t with
      | none => scanLabels t cname rest { st with hostname := fqdn }
      | some ts =>
        scanLabels t cname rest
          ⟨fqdn, true, st.services ++ [⟨cname, fqdn, ts.ipAddress⟩]⟩

/-- Self-resolution via network selection (the tail of the `discover` loop
body): note that unlike `discoverTraefik`, an empty attachment address is
*not* checked here and is parsed blindly. -/
def selfNetResolve (c : Container) (hostname : String) : List Service :=
  match networkAddr c (selectedNetwork c.labels) with
  | none => []
  | some addr => [⟨c.name, hostname, parseIP addr⟩]

/-- Self-resolution: `com.autodns.ip` override if present and non-empty
(parsed blindly, even if unparsable), else network selection. -/
def selfResolve (c : Container) (hostname : String) : List Service :=
  match lookupKey c.labels "com.autodns.ip" with
  | some ipl =>
    if ipl = "" then selfNetResolve c hostname
    else [⟨c.name, hostname, parseIP ipl⟩]
  | none => selfNetResolve c hostname

/-- After the label scan: a routed container contributes only its scanned
services; an empty hostname contributes nothing; otherwise the
scan-assigned hostname is self-resolved (this is the fall-through the
warning log belies). -/
def scanOutcome (c : Container) (st : ScanState) : List Service :=
  if st.routed then st.services
  else if st.hostname = "" then st.services
  else st.services ++ selfResolve c st.hostname

/-- The scan-then-fall-through path of the `discover` loop body. -/
def processScan (t : Option Service) (c : Container) : List Service :=
  scanOutcome c (scanLabels t c.name c.labels ⟨"", false, []⟩)

/-- The `discover` loop body for one container.  `hostname, ok :=
Labels["com.autodns.hostname"]`; the label scan runs when `!ok ||
hostname == ""`; otherwise the explicit hostname is self-resolved. -/
def processContainer (t : Option Service) (c : Container) : List Service :=
  match lookupKey c.labels "com.autodns.hostname" with
  | some h =>
    if h = "" then processScan t c
    else selfResolve c h
  | none => processScan t c

/-- The `discover` function: proxy discovery first, then the per-container loop
appending to `discovered`. -/
def discover (l : List Container) : List Service :=
  (l.map (processContainer (discoverTraefik l))).flatten

/-! ## Resolution table and query responder (`main`, `makeResponse`) -/

/-- Embeds `serviceMap[service.HostnameLabel+"."] = service.IPAddress.String()`. -/
def buildTable (services : List Service) : List (String × String) :=
  services.map (fun s => (s.hostnameLabel ++ ".", ipString s.ipAddress))

/-- Go map lookup on the built map: insertion overwrites, so the *last*
service with a given key wins; modelled by searching the reversed list. -/
def tableLookup (services : List Service) (name : String) : Option String :=
  ((buildTable services).reverse.find? (fun kv => kv.1 == name)).map (fun kv => kv.2)

/-- The DNS message fields the program manipulates.  `rrtype = 1` is
`dns.TypeA`, `rrclass = 1` is `dns.ClassINET`. -/
structure ARecord where
  rname : String
  rrtype : Nat
  rrclass : Nat
  ttl : Nat
  addr : GoIP
  deriving DecidableEq, Repr

/-- The header/answer fields of `dns.Msg` the program touches. -/
structure DnsMsg where
  ident : Nat
  response : Bool
  authoritative : Bool
  recursionAvailable : Bool
  compress : Bool
  answer : List ARecord
  deriving DecidableEq, Repr

/-- An incoming query: transaction id and question names. -/
structure DnsQuery where
  ident : Nat
  questions : List String
  deriving DecidableEq, Repr

/-- A zero `dns.Msg`. -/
def emptyMsg : DnsMsg := ⟨0, false, false, false, false, []⟩

/-- Embeds `m.SetReply(r)` of miekg/dns: copies the request id and sets the
response bit; it does not touch `Authoritative`, `RecursionAvailable`,
`Compress` or `Answer`. -/
def setReply (m : DnsMsg) (q : DnsQuery) : DnsMsg :=
  { m with ident := q.ident, response := true }

/-- The `makeResponse` function: one A record (name, type A, class INET, TTL 3600,
given address); authoritative, recursion-available, compression off. -/
def makeResponse (h : String) (ip : GoIP) : DnsMsg :=
  let m := setReply emptyMsg ⟨0, []⟩
  { m with authoritative := true, recursionAvailable := true, compress := false,
           answer := [⟨h, 1, 1, 3600, ip⟩] }

/-- The query handler registered in `main`: drop question-less queries;
on a miss reply with a fresh message (`SetReply` only); on a hit reply
with `makeResponse(name, net.ParseIP(ip))` followed by `SetReply`. -/
def handleQuery (services : List Service) (q : DnsQuery) : Option DnsMsg :=
  match q.questions with
  | [] => none
  | name :: _ =>
    match tableLookup services name with
    | none => some (setReply emptyMsg q)
    | some ip => some (setReply (makeResponse name (parseIP ip)) q)

/-! ## Concrete inventories used by the bug-exhibiting and refuting theorems -/

/-- One container carrying only a Traefik `Host` rule label, attached to
`bridge`, in an inventory with no traefik-imaged container. -/
def invC1 : List Container :=
  [⟨"svc1", "nginx", [("traefik.http.routers.web.rule", "Host(`site.io`)")],
    [("bridge", "172.17.0.7")]⟩]

/-- A container with an explicit hostname and an unparsable
`com.autodns.ip` override. -/
def invC5 : List Container :=
  [⟨"c1", "img", [("com.autodns.hostname", "app.local"), ("com.autodns.ip", "not-an-ip")],
    [("bridge", "172.17.0.5")]⟩]

/-- A container with an explicit hostname whose `bridge` attachment has an
empty address (as the inventory reports for stopped containers, which
`ContainerList(All: true)` includes). -/
def invC8 : List Container :=
  [⟨"web", "img", [("com.autodns.hostname", "web.local")], [("bridge", "")]⟩]

/-- Two traefik-imaged containers: the first has no `bridge` attachment,
the second resolves on `bridge`. -/
def invC4 : List Container :=
  [⟨"t1", "traefik", [], []⟩, ⟨"t2", "traefik:v2", [], [("bridge", "172.17.0.9")]⟩]

/-- A discovered proxy and one container carrying two well-formed Traefik
`Host` rule labels. -/
def invC7 : List Container :=
  [⟨"proxy", "traefik", [], [("bridge", "172.17.0.9")]⟩,
   ⟨"svc", "img", [("traefik.http.routers.r1.rule", "Host(`a.com`)"),
                   ("traefik.http.routers.r2.rule", "Host(`b.org`)")], []⟩]

/-- A discovered proxy, a proxy-routed container for `site.io`, and a
later container registering the same hostname with its own override. -/
def invC3 : List Container :=
  [⟨"proxy", "traefik", [], [("bridge", "172.17.0.9")]⟩,
   ⟨"svc", "img", [("traefik.http.routers.web.rule", "Host(`site.io`)")], []⟩,
   ⟨"other", "img", [("com.autodns.hostname", "site.io"), ("com.autodns.ip", "172.17.0.5")], []⟩]

/-- C1: with no proxy container discoverable, a container whose hostname
comes only from a Traefik `Host` rule label is *not* dropped: the warning
log's `continue` only continues the inner label loop, so the container
falls through to self-resolution and the table maps `site.io.` to the
container's own bridge address.  This exhibits the code bug refuting the
claim (and the code's own "skipping" log message). -/
theorem autodns_c1_traefik_fallthrough_bug :
    discoverTraefik invC1 = none ∧
    discover invC1 = [⟨"svc1", "site.io", GoIP.v4 172 17 0 7⟩] ∧
    tableLookup (discover invC1) "site.io." = some "172.17.0.7" := by decide

/-- C5: a non-empty but unparsable `com.autodns.ip` override is *not*
skipped: the code emits a Service whose address is the nil IP, and the
table maps `app.local.` to the string `"<nil>"`.  This exhibits the code
bug refuting the claim. -/
theorem autodns_c5_unparsable_override_bug :
    discover invC5 = [⟨"c1", "app.local", GoIP.nil⟩] ∧
    tableLookup (discover invC5) "app.local." = some "<nil>" := by decide

/-- C8: a resolution-table value need not be a valid IPv4 address: a
container whose `bridge` attachment reports an empty address is parsed
blindly (the self-resolution path, unlike `discoverTraefik`, never checks
for an empty address), producing the entry `web.local. ↦ "<nil>"` — the
textual rendering of a failed parse.  This exhibits the code bug refuting
the invariant. -/
theorem autodns_c8_invalid_entry_bug :
    discover invC8 = [⟨"web", "web.local", GoIP.nil⟩] ∧
    tableLookup (discover invC8) "web.local." = some "<nil>" := by decide

/-- C4 (counterexample): the first traefik-imaged container `t1` has no
attachment on its chosen network (`bridge`), yet the resolver does not
return none — the loop `continue`s and returns the *second* traefik
container's address. -/
theorem autodns_c4_counterexample :
    imageName (invC4.get ⟨0, by decide⟩).image = "traefik" ∧
    networkAddr (invC4.get ⟨0, by decide⟩) "bridge" = none ∧
    discoverTraefik invC4 = some ⟨"t2", "traefik", GoIP.v4 172 17 0 9⟩ := by decide

/-- C7 (counterexample): a container carrying two well-formed Traefik
`Host` rule labels yields *two* Services, one per matching label — the
extraction does not stop at the first match. -/
theorem autodns_c7_counterexample :
    discover invC7 = [⟨"svc", "a.com", GoIP.v4 172 17 0 9⟩,
                      ⟨"svc", "b.org", GoIP.v4 172 17 0 9⟩] := by decide

/-- C3 (counterexample): `svc` has no usable explicit hostname, carries a
well-formed `traefik.http.routers.web.rule=Host(`site.io`)` label, and a
proxy with address `172.17.0.9` is discovered — yet the resolution table
maps `site.io.` to `172.17.0.5`, because a later container registered the
same hostname and Go map insertion is last-writer-wins. -/
theorem autodns_c3_counterexample :
    discoverTraefik invC3 = some ⟨"proxy", "traefik", GoIP.v4 172 17 0 9⟩ ∧
    tableLookup (discover invC3) "site.io." = some "172.17.0.5" := by decide

/-! ## The matcher succeeds on well-formed router-rule labels -/

theorem matchLit_append_self (p r : List Char) : matchLit p (p ++ r) = some r := by
  induction p with
  | nil => rfl
  | cons c cs ih => simp [matchLit, ih]

theorem isDnsLabel_chars {p : List Char} (h : isDnsLabel p = true) :
    ∀ c ∈ p, isLabelChar c = true := by
  cases p with
  | nil => simp [isDnsLabel] at h
  | cons c cs =>
    have h' : (match cs.getLast? with
        | none => c.isAlpha
        | some d => c.isAlpha && cs.all isLabelChar && d.isAlphanum) = true := h
    cases h2 : cs.getLast? with
    | none =>
      rw [h2] at h'
      have hnil : cs = [] := List.getLast?_eq_none_iff.mp h2
      subst hnil
      intro x hx
      simp only [List.mem_singleton] at hx
      subst hx
      have halpha : x.isAlpha = true := h'
      simp [isLabelChar, halpha]
    | some d =>
      rw [h2] at h'
      simp only [Bool.and_eq_true] at h'
      intro x hx
      rcases List.mem_cons.mp hx with hx | hx
      · subst hx; simp [isLabelChar, h'.1.1]
      · exact (List.all_eq_true.mp h'.1.2) x hx

theorem splitOnDot_chars : ∀ (s : List Char) (c : Char), c ∈ s →
    c = '.' ∨ ∃ p, p ∈ splitOnDot s ∧ c ∈ p := by
  intro s
  induction s with
  | nil => simp
  | cons x xs ih =>
    intro c hc
    unfold splitOnDot
    by_cases hx : x = '.'
    · rcases List.mem_cons.mp hc with h | h
      · exact Or.inl (h.trans hx)
      · rcases ih c h with h1 | ⟨p, hp, hcp⟩
        · exact Or.inl h1
        · exact Or.inr ⟨p, by simp [hx, hp], hcp⟩
    · rw [if_neg hx]
      rcases hsp : splitOnDot xs with _ | ⟨p, ps⟩
      · rcases List.mem_cons.mp hc with h | h
        · exact Or.inr ⟨[x], by simp, by simp [h]⟩
        · rcases ih c h with h1 | ⟨q, hq, hcq⟩
          · exact Or.inl h1
          · rw [hsp] at hq; exact absurd hq (List.not_mem_nil q)
      · rcases List.mem_cons.mp hc with h | h
        · exact Or.inr ⟨x :: p, by simp, by simp [h]⟩
        · rcases ih c h with h1 | ⟨q, hq, hcq⟩
          · exact Or.inl h1
          · rw [hsp] at hq
            rcases List.mem_cons.mp hq with hq | hq
            · exact Or.inr ⟨x :: p, by simp, by simp [hq ▸ hcq]⟩
            · exact Or.inr ⟨q, by simp [hq], hcq⟩

theorem isFqdn_no_backtick {l : List Char} (h : isFqdn l = true) :
    l.all (fun c => c ≠ '`') = true := by
  rw [List.all_eq_true]
  intro c hc
  rcases splitOnDot_chars l c hc with h1 | ⟨p, hp, hcp⟩
  · subst h1; decide
  · have hlab := (List.all_eq_true.mp h) p hp
    have := isDnsLabel_chars hlab c hcp
    simp only [decide_eq_true_eq]
    intro hbt
    subst hbt
    simp [isLabelChar] at this

theorem matchAt_wellformed (nd fd : List Char) (h1 : nd ≠ [])
    (h2 : nd.all isWordCharGo = true) (h3 : isFqdn fd = true) :
    matchAt ("traefik".data ++ '.' :: ("http".data ++ '.' :: ("routers".data ++ '.' ::
      (nd ++ '.' :: ("rule=Host(`".data ++ (fd ++ '`' :: ')' :: [])))))) = some (nd, fd) := by
  unfold matchAt
  simp only [matchLit_append_self, matchAnyChar]
  have hdotw : isWordCharGo '.' = false := by decide
  have htake : (nd ++ '.' :: ("rule=Host(`".data ++ (fd ++ '`' :: ')' :: []))).takeWhile
      isWordCharGo = nd := by
    rw [takeWhile_append_of_all h2]
    simp [List.takeWhile, hdotw]
  have hdrop : (nd ++ '.' :: ("rule=Host(`".data ++ (fd ++ '`' :: ')' :: []))).dropWhile
      isWordCharGo = '.' :: ("rule=Host(`".data ++ (fd ++ '`' :: ')' :: [])) := by
    rw [dropWhile_append_of_all h2]
    simp [List.dropWhile, hdotw]
  simp only [htake, hdrop]
  obtain ⟨m, hm⟩ : ∃ m, nd.length = m + 1 := by
    cases nd with
    | nil => exact absurd rfl h1
    | cons c cs => exact ⟨cs.length, rfl⟩
  rw [hm]
  unfold tryRouterLen
  rw [← hm]
  simp only [List.drop_length, List.nil_append, matchAnyChar, matchLit_append_self]
  have hbt := isFqdn_no_backtick h3
  have hseg : (fd ++ '`' :: ')' :: []).takeWhile (fun c => c ≠ '`') = fd := by
    rw [takeWhile_append_of_all hbt]
    simp [List.takeWhile]
  have hrest : (fd ++ '`' :: ')' :: []).dropWhile (fun c => c ≠ '`') = '`' :: ')' :: [] := by
    rw [dropWhile_append_of_all hbt]
    simp [List.dropWhile]
  unfold group2Part
  simp only [hseg, hrest, h3, if_pos]
  rw [List.take_length]

theorem findTraefik_wellformed (nd fd : List Char) (h1 : nd ≠ [])
    (h2 : nd.all isWordCharGo = true) (h3 : isFqdn fd = true) :
    findTraefik ("traefik".data ++ '.' :: ("http".data ++ '.' :: ("routers".data ++ '.' ::
      (nd ++ '.' :: ("rule=Host(`".data ++ (fd ++ '`' :: ')' :: [])))))) = some (nd, fd) := by
  have h := matchAt_wellformed nd fd h1 h2 h3
  rw [show ("traefik".data : List Char) = 't' :: "raefik".data from rfl] at h ⊢
  rw [List.cons_append] at h ⊢
  unfold findTraefik
  rw [h]

/-- A label pair of the exact well-formed shape
`traefik.http.routers.NAME.rule = Host(`FQDN`)` matches, capturing the
router name and the hostname. -/
theorem traefikMatch_wellformed (name fqdn : String) (h1 : name.data ≠ [])
    (h2 : name.data.all isWordCharGo = true) (h3 : isFqdn fqdn.data = true) :
    traefikMatch ("traefik.http.routers." ++ name ++ ".rule" ++ "=" ++ ("Host(`" ++ fqdn ++ "`)")) =
      some (name, fqdn) := by
  have hdata : ("traefik.http.routers." ++ name ++ ".rule" ++ "=" ++ ("Host(`" ++ fqdn ++ "`)")).data
      = "traefik".data ++ '.' :: ("http".data ++ '.' :: ("routers".data ++ '.' ::
        (name.data ++ '.' :: ("rule=Host(`".data ++ (fqdn.data ++ '`' :: ')' :: []))))) := by
    simp only [String.data_append]
    simp [List.append_assoc]
  unfold traefikMatch
  rw [hdata, findTraefik_wellformed name.data fqdn.data h1 h2 h3]
  rfl

/-! ## Characterization of the label-scanning loop -/

/-- The hostnames captured by the regexp across a label list, in order. -/
def matchedFqdns (ls : List (String × String)) : List String :=
  ls.filterMap (fun kv => (traefikMatch (kv.1 ++ "=" ++ kv.2)).map (fun p => p.2))

theorem scanLabels_some_services (ts : Service) (n : String) (ls : List (String × String))
    (st : ScanState) : (scanLabels (some ts) n ls st).services =
      st.services ++ (matchedFqdns ls).map (fun f => ⟨n, f, ts.ipAddress⟩) := by
  induction ls generalizing st with
  | nil => simp [scanLabels, matchedFqdns]
  | cons kv rest ih =>
    obtain ⟨k, v⟩ := kv
    unfold scanLabels
    cases hm : traefikMatch (k ++ "=" ++ v) with
    | none => rw [ih]; simp [matchedFqdns, hm]
    | some p =>
      obtain ⟨r, f⟩ := p
      rw [ih]
      simp [matchedFqdns, hm]

theorem scanLabels_some_routed (ts : Service) (n : String) (ls : List (String × String))
    (st : ScanState) : (scanLabels (some ts) n ls st).routed =
      (st.routed || !(matchedFqdns ls).isEmpty) := by
  induction ls generalizing st with
  | nil => simp [scanLabels, matchedFqdns]
  | cons kv rest ih =>
    obtain ⟨k, v⟩ := kv
    unfold scanLabels
    cases hm : traefikMatch (k ++ "=" ++ v) with
    | none => rw [ih]; simp [matchedFqdns, hm]
    | some p =>
      obtain ⟨r, f⟩ := p
      rw [ih]
      simp [matchedFqdns, hm]

theorem scanLabels_some_hostname (ts : Service) (n : String) (ls : List (String × String))
    (st : ScanState) : (scanLabels (some ts) n ls st).hostname =
      (matchedFqdns ls).foldl (fun _ f => f) st.hostname := by
  induction ls generalizing st with
  | nil => simp [scanLabels, matchedFqdns]
  | cons kv rest ih =>
    obtain ⟨k, v⟩ := kv
    unfold scanLabels
    cases hm : traefikMatch (k ++ "=" ++ v) with
    | none => rw [ih]; simp [matchedFqdns, hm]
    | some p =>
      obtain ⟨r, f⟩ := p
      rw [ih]
      simp [matchedFqdns, hm]

theorem scanLabels_none_state (n : String) (ls : List (String × String)) (st : ScanState) :
    (scanLabels none n ls st).services = st.services ∧
    (scanLabels none n ls st).routed = st.routed := by
  induction ls generalizing st with
  | nil => exact ⟨rfl, rfl⟩
  | cons kv rest ih =>
    obtain ⟨k, v⟩ := kv
    unfold scanLabels
    cases hm : traefikMatch (k ++ "=" ++ v) with
    | none => exact ih st
    | some p =>
      obtain ⟨r, f⟩ := p
      exact ih _

theorem matchedFqdns_length (ls : List (String × String)) :
    (matchedFqdns ls).length =
      (ls.filter (fun kv => (traefikMatch (kv.1 ++ "=" ++ kv.2)).isSome)).length := by
  induction ls with
  | nil => rfl
  | cons kv rest ih =>
    obtain ⟨k, v⟩ := kv
    cases hm : traefikMatch (k ++ "=" ++ v) with
    | none =>
      have h1 : matchedFqdns ((k, v) :: rest) = matchedFqdns rest := by
        simp [matchedFqdns, hm]
      rw [h1, ih, List.filter_cons]
      simp [hm]
    | some p =>
      have h1 : matchedFqdns ((k, v) :: rest) = p.2 :: matchedFqdns rest := by
        simp [matchedFqdns, hm]
      rw [h1, List.filter_cons]
      simp [hm, ih]

/-! ## Self-resolution helpers -/

theorem selfResolve_empty (c : Container) (h : String)
    (hover : lookupKey c.labels "com.autodns.ip" = none ∨
             lookupKey c.labels "com.autodns.ip" = some "")
    (hnet : networkAddr c (selectedNetwork c.labels) = none) :
    selfResolve c h = [] := by
  unfold selfResolve selfNetResolve
  rcases hover with hover | hover <;> simp [hover, hnet]

theorem selfResolve_shape (c : Container) (h : String) :
    selfResolve c h = [] ∨ ∃ ip, selfResolve c h = [⟨c.name, h, ip⟩] := by
  unfold selfResolve selfNetResolve
  cases lookupKey c.labels "com.autodns.ip" with
  | none =>
    cases networkAddr c (selectedNetwork c.labels) with
    | none => exact Or.inl rfl
    | some a => exact Or.inr ⟨parseIP a, rfl⟩
  | some ipl =>
    by_cases hi : ipl = ""
    · simp only [hi, if_pos rfl]
      cases networkAddr c (selectedNetwork c.labels) with
      | none => exact Or.inl (by simp)
      | some a => exact Or.inr ⟨parseIP a, by simp⟩
    · exact Or.inr ⟨parseIP ipl, by simp [hi]⟩

/-- C7 (amended): with a discovered proxy, a container without a usable
explicit hostname yields exactly one proxy-routed Service per label that
matches the router-rule regexp — not at most one per container. -/
theorem autodns_c7_one_service_per_matching_label (P : Service) (c : Container)
    (hhost : lookupKey c.labels "com.autodns.hostname" = none ∨
             lookupKey c.labels "com.autodns.hostname" = some "") :
    (processContainer (some P) c).length =
      (c.labels.filter (fun kv => (traefikMatch (kv.1 ++ "=" ++ kv.2)).isSome)).length := by
  rw [← matchedFqdns_length]
  have hserv := scanLabels_some_services P c.name c.labels ⟨"", false, []⟩
  have hrout := scanLabels_some_routed P c.name c.labels ⟨"", false, []⟩
  have hhn := scanLabels_some_hostname P c.name c.labels ⟨"", false, []⟩
  have hbody : processContainer (some P) c = processScan (some P) c := by
    rcases hhost with hhost | hhost <;> simp [processContainer, hhost]
  rw [hbody]
  unfold processScan scanOutcome
  rw [hserv, hrout, hhn]
  cases hmf : matchedFqdns c.labels with
  | nil => simp
  | cons f fs => simp

/-- Witness for C7 (amended): the two-label container of `invC7` yields
two Services. -/
theorem autodns_c7_one_service_per_matching_label_witness :
    (processContainer (some ⟨"proxy", "traefik", GoIP.v4 172 17 0 9⟩)
        ⟨"svc", "img", [("traefik.http.routers.r1.rule", "Host(`a.com`)"),
                        ("traefik.http.routers.r2.rule", "Host(`b.org`)")], []⟩).length =
      ([("traefik.http.routers.r1.rule", "Host(`a.com`)"),
        ("traefik.http.routers.r2.rule", "Host(`b.org`)")].filter
          (fun kv => (traefikMatch (kv.1 ++ "=" ++ kv.2)).isSome)).length :=
  autodns_c7_one_service_per_matching_label _ _ (Or.inl (by decide))

/-- C9: a container whose `com.autodns.ip` override is absent or empty and
whose selected network (`com.autodns.network`, default `bridge`) has no
attachment contributes no self-resolved entry: every Service it emits is
proxy-routed (carries the discovered proxy's address), and with a usable
explicit hostname it emits nothing at all. -/
theorem autodns_c9_network_not_found_skip (t : Option Service) (c : Container)
    (hover : lookupKey c.labels "com.autodns.ip" = none ∨
             lookupKey c.labels "com.autodns.ip" = some "")
    (hnet : networkAddr c (selectedNetwork c.labels) = none) :
    (∀ s ∈ processContainer t c, ∃ ts, t = some ts ∧ s.ipAddress = ts.ipAddress) ∧
    (∀ h, lookupKey c.labels "com.autodns.hostname" = some h → h ≠ "" →
      processContainer t c = []) := by
  have hself : ∀ h, selfResolve c h = [] := fun h => selfResolve_empty c h hover hnet
  have hscan : ∀ s2 ∈ processScan t c, ∃ ts, t = some ts ∧ s2.ipAddress = ts.ipAddress := by
    intro s2 hs2
    unfold processScan scanOutcome at hs2
    cases t with
    | none =>
      obtain ⟨he, hro⟩ := scanLabels_none_state c.name c.labels ⟨"", false, []⟩
      rw [he, hro, hself] at hs2
      simp at hs2
    | some ts =>
      refine ⟨ts, rfl, ?_⟩
      rw [scanLabels_some_services ts c.name c.labels _, hself] at hs2
      simp only [List.nil_append, List.append_nil] at hs2
      have hmem : s2 ∈ (matchedFqdns c.labels).map
          (fun f => Service.mk c.name f ts.ipAddress) := by
        split at hs2
        · exact hs2
        · split at hs2
          · exact hs2
          · exact hs2
      obtain ⟨f, -, hf⟩ := List.mem_map.mp hmem
      rw [← hf]
  constructor
  · intro s hs
    cases hl : lookupKey c.labels "com.autodns.hostname" with
    | none =>
      simp only [processContainer, hl] at hs
      exact hscan s hs
    | some h =>
      simp only [processContainer, hl] at hs
      by_cases hh : h = ""
      · rw [if_pos hh] at hs
        exact hscan s hs
      · rw [if_neg hh, hself] at hs
        simp at hs
  · intro h hl hh
    simp only [processContainer, hl, if_neg hh]
    exact hself h

/-- Witness for C9: an explicit hostname but no `bridge` attachment. -/
theorem autodns_c9_network_not_found_skip_witness :
    processContainer none ⟨"c", "img", [("com.autodns.hostname", "app.local")], []⟩ = [] :=
  (autodns_c9_network_not_found_skip none _ (Or.inl (by decide)) (by decide)).2
    "app.local" (by decide) (by decide)

/-- C10: a present-but-empty `com.autodns.network` label selects the empty
string as the network name — the `bridge` default applies only when the
label is absent — so the container is skipped unless it has an attachment
literally named `""`; the same holds inside proxy discovery. -/
theorem autodns_c10_empty_network_label (t : Option Service) (c : Container) (h : String)
    (hh : lookupKey c.labels "com.autodns.hostname" = some h) (hne : h ≠ "")
    (hover : lookupKey c.labels "com.autodns.ip" = none ∨
             lookupKey c.labels "com.autodns.ip" = some "")
    (hnl : lookupKey c.labels "com.autodns.network" = some "") :
    (networkAddr c "" = none → processContainer t c = []) ∧
    (∀ a, networkAddr c "" = some a → processContainer t c = [⟨c.name, h, parseIP a⟩]) ∧
    (networkAddr c "" = none → resolveTraefikContainer c = none) := by
  have hsel : selectedNetwork c.labels = "" := by unfold selectedNetwork; rw [hnl]
  have hbody : processContainer t c = selfResolve c h := by
    simp [processContainer, hh, hne]
  refine ⟨?_, ?_, ?_⟩
  · intro hna
    rw [hbody]
    exact selfResolve_empty c h hover (hsel ▸ hna)
  · intro a hna
    rw [hbody]
    unfold selfResolve selfNetResolve
    rcases hover with hover | hover <;> simp [hover, hsel, hna]
  · intro hna
    unfold resolveTraefikContainer resolveTraefikNet
    rcases hover with hover | hover <;> simp [hover, hsel, hna]

/-- Witness for C10: empty network label, only a `bridge` attachment — the
container is skipped even though `bridge` would have resolved. -/
theorem autodns_c10_empty_network_label_witness :
    processContainer none ⟨"c", "img",
      [("com.autodns.hostname", "app.local"), ("com.autodns.network", "")],
      [("bridge", "172.17.0.5")]⟩ = [] :=
  (autodns_c10_empty_network_label none _ "app.local" (by decide) (by decide)
    (Or.inl (by decide)) (by decide)).1 (by decide)

/-! ## Erasing a non-matching label pair does not change the outcome -/

theorem lookupKey_append_not_in (l1 rest : List (String × String)) (key : String)
    (h : key ∉ l1.map Prod.fst) : lookupKey (l1 ++ rest) key = lookupKey rest key := by
  induction l1 with
  | nil => rfl
  | cons kv l1' ih =>
    obtain ⟨k, v⟩ := kv
    simp only [List.map_cons, List.mem_cons] at h
    push_neg at h
    have hk : (k == key) = false := by
      simp only [beq_eq_false_iff_ne]
      exact fun he => h.1 he.symm
    simp only [List.cons_append, lookupKey, List.find?_cons, hk]
    exact ih h.2

theorem lookupKey_not_in (l : List (String × String)) (key : String)
    (h : key ∉ l.map Prod.fst) : lookupKey l key = none := by
  have := lookupKey_append_not_in l [] key h
  simpa using this

theorem lookupKey_middle_other (l1 l2 : List (String × String)) (k v key : String)
    (h : key ≠ k) :
    lookupKey (l1 ++ (k, v) :: l2) key = lookupKey (l1 ++ l2) key := by
  induction l1 with
  | nil =>
    have hk : (k == key) = false := by
      simp only [beq_eq_false_iff_ne]
      exact fun he => h he.symm
    simp [lookupKey, List.find?_cons, hk]
  | cons kv l1' ih =>
    obtain ⟨k1, v1⟩ := kv
    simp only [List.cons_append, lookupKey, List.find?_cons]
    cases hq : (k1 == key) with
    | true => rfl
    | false => exact ih

theorem scanLabels_middle_no_match (t : Option Service) (n : String)
    (l1 l2 : List (String × String)) (k v : String) (st : ScanState)
    (h : traefikMatch (k ++ "=" ++ v) = none) :
    scanLabels t n (l1 ++ (k, v) :: l2) st = scanLabels t n (l1 ++ l2) st := by
  induction l1 generalizing st with
  | nil => simp only [List.nil_append, scanLabels, h]
  | cons kv l1' ih =>
    obtain ⟨k1, v1⟩ := kv
    simp only [List.cons_append, scanLabels]
    cases hm : traefikMatch (k1 ++ "=" ++ v1) with
    | none => exact ih st
    | some p =>
      obtain ⟨r, f⟩ := p
      cases t with
      | none => exact ih _
      | some ts => exact ih _

theorem selfResolve_erase_middle (c : Container) (l1 l2 : List (String × String))
    (v hostname : String)
    (hl : c.labels = l1 ++ ("com.autodns.hostname", v) :: l2) :
    selfResolve c hostname =
      selfResolve ⟨c.name, c.image, l1 ++ l2, c.networks⟩ hostname := by
  have hip : lookupKey c.labels "com.autodns.ip" = lookupKey (l1 ++ l2) "com.autodns.ip" := by
    rw [hl]; exact lookupKey_middle_other l1 l2 _ v _ (by decide)
  have hnet : lookupKey c.labels "com.autodns.network"
      = lookupKey (l1 ++ l2) "com.autodns.network" := by
    rw [hl]; exact lookupKey_middle_other l1 l2 _ v _ (by decide)
  unfold selfResolve selfNetResolve selectedNetwork networkAddr
  simp only [hip, hnet]

/-- C2: a present non-empty `com.autodns.hostname` label is used verbatim
regardless of Traefik rule labels (the scan never runs; the outcome does
not depend on the proxy and is at most one Service carrying exactly that
hostname), while a present-but-empty label behaves exactly as if the label
were absent, falling through to Traefik-rule inference. -/
theorem autodns_c2_hostname_label_precedence (t : Option Service) (c : Container) :
    (∀ h, lookupKey c.labels "com.autodns.hostname" = some h → h ≠ "" →
      ((processContainer t c = [] ∨ ∃ ip, processContainer t c = [⟨c.name, h, ip⟩]) ∧
       ∀ t2, processContainer t2 c = processContainer t c)) ∧
    (∀ l1 l2, c.labels = l1 ++ ("com.autodns.hostname", "") :: l2 →
      "com.autodns.hostname" ∉ l1.map Prod.fst →
      "com.autodns.hostname" ∉ l2.map Prod.fst →
      processContainer t c = processContainer t ⟨c.name, c.image, l1 ++ l2, c.networks⟩) := by
  constructor
  · intro h hl hne
    have hbody : ∀ t2, processContainer t2 c = selfResolve c h := by
      intro t2
      simp [processContainer, hl, hne]
    refine ⟨?_, fun t2 => (hbody t2).trans (hbody t).symm⟩
    rw [hbody t]
    exact selfResolve_shape c h
  · intro l1 l2 hl hn1 hn2
    have hlook : lookupKey c.labels "com.autodns.hostname" = some "" := by
      rw [hl, lookupKey_append_not_in l1 _ _ hn1]
      simp [lookupKey, List.find?_cons]
    have hlook2 : lookupKey (l1 ++ l2) "com.autodns.hostname" = none := by
      rw [lookupKey_append_not_in l1 _ _ hn1]
      exact lookupKey_not_in l2 _ hn2
    have hmatch : traefikMatch ("com.autodns.hostname" ++ "=" ++ "") = none := by decide
    have hscan : scanLabels t c.name c.labels ⟨"", false, []⟩
        = scanLabels t c.name (l1 ++ l2) ⟨"", false, []⟩ := by
      rw [hl]
      exact scanLabels_middle_no_match t c.name l1 l2 _ _ _ hmatch
    simp only [processContainer, hlook, hlook2, if_pos rfl]
    unfold processScan scanOutcome
    rw [hscan]
    simp only []
    rw [selfResolve_erase_middle c l1 l2 "" _ hl]
    simp

/-- Witness for C2: a container with an explicit hostname and an override
(first facet), and one with an empty hostname label plus an unrelated
label (second facet). -/
theorem autodns_c2_hostname_label_precedence_witness :
    ((processContainer none ⟨"c", "img",
        [("com.autodns.hostname", "app.local"), ("com.autodns.ip", "1.2.3.4")], []⟩ = [] ∨
      ∃ ip, processContainer none ⟨"c", "img",
        [("com.autodns.hostname", "app.local"), ("com.autodns.ip", "1.2.3.4")], []⟩ =
          [⟨"c", "app.local", ip⟩]) ∧
     ∀ t2, processContainer t2 ⟨"c", "img",
        [("com.autodns.hostname", "app.local"), ("com.autodns.ip", "1.2.3.4")], []⟩ =
       processContainer none ⟨"c", "img",
        [("com.autodns.hostname", "app.local"), ("com.autodns.ip", "1.2.3.4")], []⟩) ∧
    processContainer none ⟨"c", "img",
        [("x", "y"), ("com.autodns.hostname", "")], [("bridge", "1.2.3.4")]⟩ =
      processContainer none ⟨"c", "img", [("x", "y")], [("bridge", "1.2.3.4")]⟩ :=
  ⟨(autodns_c2_hostname_label_precedence none _).1 "app.local" (by decide) (by decide),
   (autodns_c2_hostname_label_precedence none _).2 [("x", "y")] [] (by decide)
     (by decide) (by decide)⟩

/-- C4 (amended): the Proxy Address Resolver returns at most one result
(its type is an option); the result is derived from the *first* container
in inventory order whose image name is exactly `traefik` *and* that yields
an address — a traefik-imaged container whose chosen network has no
attachment or an empty address (and no non-empty override) is skipped and
later containers are considered; `none` is returned only when no
traefik-imaged container resolves. -/
theorem autodns_c4_resolver_first_resolving (l : List Container) (s : Service) :
    discoverTraefik l = some s ↔
      ∃ l1 c l2, l = l1 ++ c :: l2 ∧
        (∀ c2 ∈ l1, imageName c2.image = "traefik" → resolveTraefikContainer c2 = none) ∧
        imageName c.image = "traefik" ∧ resolveTraefikContainer c = some s := by
  constructor
  · intro h
    induction l with
    | nil => simp [discoverTraefik] at h
    | cons c0 rest ih =>
      by_cases hi : imageName c0.image = "traefik"
      · cases hr : resolveTraefikContainer c0 with
        | some s0 =>
          have : some s0 = some s := by
            simpa [discoverTraefik, hi, hr] using h
          refine ⟨[], c0, rest, rfl, by simp, hi, ?_⟩
          rw [hr, this]
        | none =>
          have h2 : discoverTraefik rest = some s := by
            simpa [discoverTraefik, hi, hr] using h
          obtain ⟨l1, c, l2, he, hpre, hic, hrc⟩ := ih h2
          refine ⟨c0 :: l1, c, l2, by rw [he]; rfl, ?_, hic, hrc⟩
          intro c2 hc2
          rcases List.mem_cons.mp hc2 with hc2 | hc2
          · subst hc2; intro _; exact hr
          · exact hpre c2 hc2
      · have h2 : discoverTraefik rest = some s := by
          simpa [discoverTraefik, hi] using h
        obtain ⟨l1, c, l2, he, hpre, hic, hrc⟩ := ih h2
        refine ⟨c0 :: l1, c, l2, by rw [he]; rfl, ?_, hic, hrc⟩
        intro c2 hc2
        rcases List.mem_cons.mp hc2 with hc2 | hc2
        · subst hc2; intro hcon; exact absurd hcon hi
        · exact hpre c2 hc2
  · rintro ⟨l1, c, l2, he, hpre, hic, hrc⟩
    subst he
    induction l1 with
    | nil => simp [discoverTraefik, hic, hrc]
    | cons c0 l1' ih =>
      have h0 := hpre c0 (by simp)
      simp only [List.cons_append, discoverTraefik]
      by_cases hi0 : imageName c0.image = "traefik"
      · rw [if_pos hi0, h0 hi0]
        exact ih (fun c2 hc2 => hpre c2 (by simp [hc2]))
      · rw [if_neg hi0]
        exact ih (fun c2 hc2 => hpre c2 (by simp [hc2]))

/-! ## Resolution-table lookup lemmas -/

theorem string_append_cancel_right {a b c : String} (h : a ++ c = b ++ c) : a = b := by
  apply String.ext
  have hd : a.data ++ c.data = b.data ++ c.data := by
    rw [← String.data_append, ← String.data_append, h]
  exact List.append_cancel_right hd

theorem tableLookup_value_form (D : List Service) (name v : String)
    (h : tableLookup D name = some v) : ∃ s ∈ D, v = ipString s.ipAddress := by
  unfold tableLookup at h
  cases hf : ((buildTable D).reverse.find? (fun kv => kv.1 == name)) with
  | none => rw [hf] at h; exact absurd h (by simp)
  | some kv =>
    rw [hf] at h
    simp only [Option.map_some', Option.some.injEq] at h
    have hmem : kv ∈ (buildTable D).reverse := List.mem_of_find?_eq_some hf
    rw [List.mem_reverse] at hmem
    unfold buildTable at hmem
    obtain ⟨s, hs, he⟩ := List.mem_map.mp hmem
    exact ⟨s, hs, by rw [← h, ← he]⟩

theorem tableLookup_eq_of_all (D : List Service) (fq : String) (A : GoIP)
    (hmem : ∃ s ∈ D, s.hostnameLabel = fq ∧ s.ipAddress = A)
    (hall : ∀ s ∈ D, s.hostnameLabel = fq → s.ipAddress = A) :
    tableLookup D (fq ++ ".") = some (ipString A) := by
  obtain ⟨s0, hs0, hh0, hip0⟩ := hmem
  have hentry : ((fq ++ ".", ipString A) : String × String) ∈ (buildTable D).reverse := by
    rw [List.mem_reverse]
    unfold buildTable
    exact List.mem_map.mpr ⟨s0, hs0, by rw [hh0, hip0]⟩
  have hsome : ((buildTable D).reverse.find? (fun kv => kv.1 == fq ++ ".")).isSome := by
    apply List.find?_isSome.mpr
    exact ⟨_, hentry, by simp⟩
  obtain ⟨kv, hf⟩ := Option.isSome_iff_exists.mp hsome
  have hp := List.find?_some hf
  have hkey : kv.1 = fq ++ "." := by simpa using hp
  have hmem2 : kv ∈ buildTable D := by
    rw [← List.mem_reverse]
    exact List.mem_of_find?_eq_some hf
  unfold buildTable at hmem2
  obtain ⟨s, hs, he⟩ := List.mem_map.mp hmem2
  have hsh : s.hostnameLabel = fq := by
    apply string_append_cancel_right (c := ".")
    rw [← hkey, ← he]
  have hsip : s.ipAddress = A := hall s hs hsh
  unfold tableLookup
  rw [hf]
  simp only [Option.map_some', Option.some.injEq]
  rw [← he, hsip]

/-- C3 (amended): a container with no usable explicit hostname carrying a
well-formed `traefik.http.routers.NAME.rule=Host(`FQDN`)` label, with a
proxy of address `A` discovered, contributes the Service `FQDN ↦ A` to the
registry; the table entry for `FQDN.` is `A` *provided* every service
registered under that hostname carries `A` (Go map insertion is
last-writer-wins, so a later container registering the same hostname can
overwrite the entry — the unconditional claim is refuted by
`autodns_c3_counterexample`). -/
theorem autodns_c3_proxy_routed_entry (l : List Container) (c : Container) (P : Service)
    (k v name fqdn : String)
    (hc : c ∈ l)
    (hhost : lookupKey c.labels "com.autodns.hostname" = none ∨
             lookupKey c.labels "com.autodns.hostname" = some "")
    (hkv : (k, v) ∈ c.labels)
    (hk : k = "traefik.http.routers." ++ name ++ ".rule")
    (hv : v = "Host(`" ++ fqdn ++ "`)")
    (hname1 : name.data ≠ []) (hname2 : name.data.all isWordCharGo = true)
    (hfqdn : isFqdn fqdn.data = true)
    (hproxy : discoverTraefik l = some P) :
    Service.mk c.name fqdn P.ipAddress ∈ discover l ∧
    ((∀ s ∈ discover l, s.hostnameLabel = fqdn → s.ipAddress = P.ipAddress) →
      tableLookup (discover l) (fqdn ++ ".") = some (ipString P.ipAddress)) := by
  have hmatch : traefikMatch (k ++ "=" ++ v) = some (name, fqdn) := by
    rw [hk, hv]
    exact traefikMatch_wellformed name fqdn hname1 hname2 hfqdn
  have hfq : fqdn ∈ matchedFqdns c.labels := by
    unfold matchedFqdns
    apply List.mem_filterMap.mpr
    exact ⟨(k, v), hkv, by rw [hmatch]; rfl⟩
  have hsvc : Service.mk c.name fqdn P.ipAddress ∈ processContainer (some P) c := by
    have hbody : processContainer (some P) c = processScan (some P) c := by
      rcases hhost with hhost | hhost <;> simp [processContainer, hhost]
    rw [hbody]
    unfold processScan scanOutcome
    rw [scanLabels_some_routed P c.name c.labels _,
        scanLabels_some_services P c.name c.labels _]
    have hne : (matchedFqdns c.labels).isEmpty = false := by
      cases hm : matchedFqdns c.labels with
      | nil => rw [hm] at hfq; simp at hfq
      | cons a b => rfl
    rw [hne]
    simp only [Bool.not_false, Bool.or_true, if_pos, List.nil_append]
    exact List.mem_map.mpr ⟨fqdn, hfq, rfl⟩
  have hmem : Service.mk c.name fqdn P.ipAddress ∈ discover l := by
    unfold discover
    rw [hproxy]
    apply List.mem_flatten.mpr
    exact ⟨processContainer (some P) c, List.mem_map.mpr ⟨c, hc, rfl⟩, hsvc⟩
  refine ⟨hmem, fun hall => ?_⟩
  exact tableLookup_eq_of_all _ fqdn P.ipAddress ⟨_, hmem, rfl, rfl⟩ hall

/-- A two-container inventory for the C3 witness: the proxy and one
proxy-routed container, with no conflicting registration. -/
def invC3w : List Container :=
  [⟨"proxy", "traefik", [], [("bridge", "172.17.0.9")]⟩,
   ⟨"svc", "img", [("traefik.http.routers.web.rule", "Host(`site.io`)")], []⟩]

/-- Witness for C3 (amended): in `invC3w` the proxy-routed entry appears
and the table maps `site.io.` to the proxy address. -/
theorem autodns_c3_proxy_routed_entry_witness :
    Service.mk "svc" "site.io" (GoIP.v4 172 17 0 9) ∈ discover invC3w ∧
    tableLookup (discover invC3w) "site.io." = some "172.17.0.9" := by
  have h := autodns_c3_proxy_routed_entry invC3w
    ⟨"svc", "img", [("traefik.http.routers.web.rule", "Host(`site.io`)")], []⟩
    ⟨"proxy", "traefik", GoIP.v4 172 17 0 9⟩
    "traefik.http.routers.web.rule" "Host(`site.io`)" "web" "site.io"
    (by decide) (Or.inl (by decide)) (by decide) (by decide) (by decide)
    (by decide) (by decide) (by decide) (by decide)
  refine ⟨h.1, ?_⟩
  have h2 := h.2 (by decide)
  rw [show ipString (GoIP.v4 172 17 0 9) = "172.17.0.9" from rfl] at h2
  exact h2

/-- C6: for a query whose first question is a table key, the reply is the
`makeResponse` message after `SetReply`: exactly one A record with the
query name, class Internet (1), TTL 3600, and the parse of the stored
value — whose rendering is exactly the stored table value — with the
Authoritative and RecursionAvailable flags set, compression disabled, and
the transaction id mirroring the query; for a first question absent from
the table, the reply has zero answer records and mirrors the id. -/
theorem autodns_c6_query_response (services : List Service) (q : DnsQuery)
    (name : String) (rest : List String) (hq : q.questions = name :: rest) :
    (∀ v, tableLookup services name = some v →
      handleQuery services q =
        some ⟨q.ident, true, true, true, false, [⟨name, 1, 1, 3600, parseIP v⟩]⟩ ∧
      ipString (parseIP v) = v) ∧
    (tableLookup services name = none →
      handleQuery services q = some ⟨q.ident, true, false, false, false, []⟩) := by
  constructor
  · intro v hv
    constructor
    · simp [handleQuery, hq, hv, makeResponse, setReply, emptyMsg]
    · obtain ⟨s, -, he⟩ := tableLookup_value_form services name v hv
      rw [he, parseIP_ipString]
  · intro hv
    simp [handleQuery, hq, hv, setReply, emptyMsg]

/-- Witness for C6: a one-service table, a hit query and the exact reply. -/
theorem autodns_c6_query_response_witness :
    handleQuery [⟨"c", "app.local", GoIP.v4 172 17 0 5⟩] ⟨7, ["app.local."]⟩ =
      some ⟨7, true, true, true, false, [⟨"app.local.", 1, 1, 3600, parseIP "172.17.0.5"⟩]⟩ ∧
    ipString (parseIP "172.17.0.5") = "172.17.0.5" :=
  (autodns_c6_query_response [⟨"c", "app.local", GoIP.v4 172 17 0 5⟩] ⟨7, ["app.local."]⟩
    "app.local." [] rfl).1 "172.17.0.5" (by decide)

end AutoDNS
